import Mathlib

/-!
# achile: the manifest comparison engine (`comparer.go`)

A shallow embedding of `Comparer` and its methods `List`, `Compare`,
`compareFiles`, `compare`, `lookupFile` and `digestFile`, followed by the
properties proved about them.

The receiver `*Comparer` is passed explicitly and returned with the result.
What the methods obtain from outside the file is a parameter, gathered in
`Env`: the hash algorithm behind the digest, `filepath.Clean` and
`filepath.Join`, `os.Stat`, `os.Open` followed by `io.Copy`, and `FormatSize`.
-/

namespace Achile

/-- One octet. -/
abbrev Byte := Fin 256

/-- Status character of a record found in no directory. -/
def Deleted : Char := 'D'

/-- Status character of a record whose file matches the manifest. -/
def Identical : Char := 'I'

/-- Status character of a record whose file could not be validated. -/
def Modified : Char := 'M'

/-- Status character declared next to the others; `comparer.go` never assigns it. -/
def Added : Char := 'A'

/-- Modelled from the spec: the record type `FileInfo`, whose declaration is
not in `comparer.go`. The spec gives a record a path, an unsigned 64-bit size
and the recorded checksum; the field names are the ones `comparer.go` uses. -/
structure FileInfo where
  File : String
  Size : Nat
  Curr : List Byte
  deriving DecidableEq, Repr

/-- Modelled from the spec: the aggregate `Coze`, whose declaration is not in
`comparer.go`: a count of entries and a sum of sizes. Both fields are
unsigned 64-bit quantities, the width of the trailer fields `compare` reads
into them. -/
structure Coze where
  Count : Nat
  Size : Nat
  deriving DecidableEq, Repr

/-- Modelled from the spec: `Coze.Update`, absent from `comparer.go`; one more
entry, and its size added to the sum, both in 64-bit arithmetic. -/
def Coze.Update (c : Coze) (z : Nat) : Coze :=
  { Count := (c.Count + 1) % 2 ^ 64, Size := (c.Size + z) % 2 ^ 64 }

/-- Modelled from the spec: `Coze.Equal`, absent from `comparer.go`; comparison
by value of both fields. -/
def Coze.Equal (c other : Coze) : Bool :=
  c.Count == other.Count && c.Size == other.Size

/-- Errors the methods of `Comparer` return. -/
inductive Error where
  /-- The error of `os.Open`. -/
  | openFailed (file : String)
  /-- The error of `io.Copy`. -/
  | copyFailed (file : String)
  /-- The text `size mismatched` of `digestFile`. -/
  | sizeMismatched (size : Nat) (n : Int)
  /-- The text `checksum mismatched` of `digestFile`. -/
  | checksumMismatched (file : String) (curr sum : List Byte)
  /-- The text `no such file` of `List`. -/
  | noSuchFile (file : String)
  /-- The text `final count/size mismatched!` of `compare`. -/
  | finalCountSize
  /-- The text `final checksum mismatched` of `compare`. -/
  | finalChecksum (sum accu : List Byte)
  /-- The value `io.EOF`. -/
  | eof
  /-- The value `io.ErrUnexpectedEOF`. -/
  | unexpectedEOF
  deriving DecidableEq, Repr

/-- What `os.Open` followed by `io.Copy` into the digest does for one path:
the open fails, or `bytes` are streamed and the copy then ends with or without
an error. -/
inductive Copied where
  | openFails
  | streamed (bytes : List Byte) (failed : Bool)
  deriving DecidableEq, Repr

/-- The collaborators of `comparer.go` that live outside it. -/
structure Env where
  /-- The hash function of the algorithm named in the manifest header. -/
  hash : List Byte → List Byte
  /-- The output length of that algorithm, `Digest.Size()`. -/
  size : Nat
  /-- The function `filepath.Clean`. -/
  Clean : String → String
  /-- The function `filepath.Join` of a directory and a path. -/
  Join : String → String → String
  /-- Whether `os.Stat` succeeds on the path and reports a regular file. -/
  isRegular : String → Bool
  /-- The outcome of `os.Open` and `io.Copy` on the path. -/
  copy : String → Copied
  /-- The function `FormatSize`, absent from `comparer.go`. -/
  FormatSize : Nat → String

/-- Modelled from the spec: the type `Digest`, absent from `comparer.go`. The
spec gives it two accumulators fed by the same writes, a local one that
`Reset` clears and a global one that is never cleared. Each accumulator is
represented by the bytes written to it, and its value is their hash. -/
structure Digest where
  loc : List Byte
  glob : List Byte
  deriving DecidableEq, Repr

/-- Modelled from the spec: `NewDigest`, a digest to which nothing was written. -/
def NewDigest : Digest := { loc := [], glob := [] }

/-- Modelled from the spec: `Digest.Write` feeds both accumulators. -/
def Digest.Write (d : Digest) (p : List Byte) : Digest :=
  { loc := d.loc ++ p, glob := d.glob ++ p }

/-- Modelled from the spec: `Digest.Local`, the digest of the bytes written
since the last `Reset`. -/
def Digest.Local (E : Env) (d : Digest) : List Byte := E.hash d.loc

/-- Modelled from the spec: `Digest.Global`, the digest of all bytes ever written. -/
def Digest.Global (E : Env) (d : Digest) : List Byte := E.hash d.glob

/-- Modelled from the spec: `Digest.Reset` clears the local accumulator only. -/
def Digest.Reset (d : Digest) : Digest := { loc := [], glob := d.glob }

/-- The receiver of the methods. The reader `inner` is represented by what
`FetchInfos` (absent from `comparer.go`) yields from it, `infos`, and by the
bytes left in it once that sequence has ended, `rest`. -/
structure Comparer where
  digest : Digest
  pretty : Bool
  verbose : Bool
  infos : List FileInfo
  rest : List Byte
  deriving DecidableEq, Repr

/-- The conversion `int64(x)` of a 64-bit quantity. -/
def toInt64 (n : Nat) : Int :=
  if n % 2 ^ 64 < 2 ^ 63 then ((n % 2 ^ 64 : Nat) : Int) else ((n % 2 ^ 64 : Nat) : Int) - 2 ^ 64

/-- One lower-case hexadecimal digit. -/
def hexDigit (n : Nat) : Char :=
  if n < 10 then Char.ofNat (48 + n) else Char.ofNat (87 + n)

/-- The verb `%x` applied to a byte slice. -/
def hex (bs : List Byte) : String :=
  String.mk (bs.flatMap fun b => [hexDigit (b.val / 16), hexDigit (b.val % 16)])

/-- Left-justified padding to a width, the flag `-` of `%-12d` and `%-8s`. -/
def padRight (w : Nat) (s : String) : String :=
  s ++ String.mk (List.replicate (w - s.length) ' ')

/-- The method `lookupFile`: the first directory with a regular file at the
joined path wins and the record is returned with that path. -/
def lookupFile (E : Env) (fi : FileInfo) : List String → FileInfo × Bool
  | [] => (fi, false)
  | d :: ds =>
    let file := E.Join d fi.File
    if E.isRegular file then ({ fi with File := file }, true)
    else lookupFile E fi ds

/-- The method `digestFile`, returning the digest it wrote to and its error. -/
def digestFile (E : Env) (d : Digest) (fi : FileInfo) : Digest × Option Error :=
  match E.copy fi.File with
  | .openFails => (d, some (.openFailed fi.File))
  | .streamed bytes failed =>
    let d1 := d.Write bytes
    let n : Int := toInt64 bytes.length
    if failed then (d1, some (.copyFailed fi.File))
    else if n ≠ toInt64 fi.Size then (d1, some (.sizeMismatched fi.Size n))
    else if fi.Curr ≠ d1.Local E then
      (d1, some (.checksumMismatched fi.File fi.Curr (d1.Local E)))
    else (d1, none)

/-- The arguments of one `Printf` of `compareFiles`: the status, the record
as `lookupFile` returned it, and `c.digest.Local()` at that point. -/
structure Entry where
  st : Char
  fi : FileInfo
  sum : List Byte
  deriving DecidableEq, Repr

/-- The size column of a report line: `FormatSize` under `%-8s` when pretty,
`int64(fi.Size)` under `%-12d` otherwise. -/
def sizeField (E : Env) (pretty : Bool) (size : Nat) : String :=
  if pretty then padRight 8 (E.FormatSize size)
  else padRight 12 (toString (toInt64 size))

/-- The line `List` prints for a record. -/
def listLine (E : Env) (pretty : Bool) (sum : List Byte) (fi : FileInfo) : String :=
  sizeField E pretty fi.Size ++ "  " ++ hex sum ++ "  " ++ fi.File ++ "\n"

/-- The line `compareFiles` prints for a record. -/
def compareLine (E : Env) (pretty : Bool) (e : Entry) : String :=
  String.singleton e.st ++ "  " ++ sizeField E pretty e.fi.Size ++ "  " ++ hex e.sum
    ++ "  " ++ e.fi.File ++ "\n"

/-- What a method leaves behind: the receiver, the aggregate and error it
returns, the lines it printed, and for `compareFiles` the arguments of each
report in order. -/
structure Run where
  c : Comparer
  cz : Coze
  err : Option Error
  out : List String
  trace : List Entry

/-- The loop of `List`: the records still to come, the aggregate so far. It
yields the records left unread, the aggregate, the error and the lines. -/
def listLoop (E : Env) (c : Comparer) (dirs : List String) :
    List FileInfo → Coze → List FileInfo × Coze × Option Error × List String
  | [], cz => ([], cz, none, [])
  | i :: is, cz =>
    let r := lookupFile E i dirs
    if !r.2 then (is, cz, some (.noSuchFile r.1.File), [])
    else
      let line := if c.verbose then [listLine E c.pretty (c.digest.Local E) r.1] else []
      let t := listLoop E c dirs is (cz.Update r.1.Size)
      (t.1, t.2.1, t.2.2.1, line ++ t.2.2.2)

/-- The method `List`. -/
def Comparer.List (E : Env) (c : Comparer) (dirs : List String) : Run :=
  let t := listLoop E c (dirs.map E.Clean) c.infos { Count := 0, Size := 0 }
  { c := { c with infos := t.1 }, cz := t.2.1, err := t.2.2.1, out := t.2.2.2, trace := [] }

/-- The body of the loop of `compareFiles` up to the report: the digest and
aggregate after the record, and what is reported. -/
def compareEntry (E : Env) (dirs : List String) (d : Digest) (cz : Coze) (i : FileInfo) :
    Digest × Coze × Entry :=
  let r := lookupFile E i dirs
  if r.2 then
    let t := digestFile E d r.1
    let st := if t.2.isSome then Modified else Identical
    (t.1, cz.Update r.1.Size, { st := st, fi := r.1, sum := t.1.Local E })
  else (d, cz, { st := Deleted, fi := r.1, sum := d.Local E })

/-- The loop of `compareFiles`: each record is handled, reported, and the
digest is reset. -/
def compareLoop (E : Env) (dirs : List String) :
    List FileInfo → Digest → Coze → Digest × Coze × List Entry
  | [], d, cz => (d, cz, [])
  | i :: is, d, cz =>
    let s := compareEntry E dirs d cz i
    let t := compareLoop E dirs is s.1.Reset s.2.1
    (t.1, t.2.1, s.2.2 :: t.2.2)

/-- The method `compareFiles`. -/
def compareFiles (E : Env) (c : Comparer) (dirs : List String) : Run :=
  let t := compareLoop E dirs c.infos c.digest { Count := 0, Size := 0 }
  { c := { c with digest := t.1, infos := [] }, cz := t.2.1, err := none,
    out := if c.verbose then t.2.2.map (compareLine E c.pretty) else [],
    trace := t.2.2 }

/-- The function `io.ReadFull` on a reader holding `s`, for a buffer of `n`
bytes: the buffer or the error, and what is left in the reader. -/
def ReadFull (s : List Byte) (n : Nat) : Except Error (List Byte) × List Byte :=
  if n ≤ s.length then (.ok (s.take n), s.drop n)
  else if s.isEmpty then (.error .eof, [])
  else (.error .unexpectedEOF, [])

/-- The function `binary.BigEndian.Uint64`. -/
def beUint64 (bs : List Byte) : Nat :=
  bs.foldl (fun a b => a * 256 + b.val) 0

/-- The call `binary.Read(r, binary.BigEndian, &x)` for a `uint64` holding
`cur`: the value of `x` afterwards, the error, and what is left in the reader. -/
def binaryRead (s : List Byte) (cur : Nat) : Nat × Option Error × List Byte :=
  match ReadFull s 8 with
  | (.ok bs, s1) => (beUint64 bs, none, s1)
  | (.error e, s1) => (cur, some e, s1)

/-- The method `compare`: the two numeric fields are read, their errors
dropped, then the checksum is read and compared. -/
def compare (E : Env) (c : Comparer) (cz : Coze) : Comparer × Coze × Option Error :=
  let r1 := binaryRead c.rest 0
  let r2 := binaryRead r1.2.2 0
  let z : Coze := { Count := r1.1, Size := r2.1 }
  if !cz.Equal z then ({ c with rest := r2.2.2 }, z, some .finalCountSize)
  else
    match ReadFull r2.2.2 E.size with
    | (.error e, s) => ({ c with rest := s }, cz, some e)
    | (.ok accu, s) =>
      let sum := c.digest.Global E
      if sum ≠ accu then ({ c with rest := s }, z, some (.finalChecksum sum accu))
      else ({ c with rest := s }, z, none)

/-- The method `Compare`. -/
def Compare (E : Env) (c : Comparer) (dirs : List String) : Run :=
  let f := compareFiles E c (dirs.map E.Clean)
  match f.err with
  | none =>
    let t := compare E f.c f.cz
    { f with c := t.1, err := t.2.2 }
  | some e => { f with err := some e }

/-- The method `Checksum`. -/
def Checksum (E : Env) (c : Comparer) : List Byte := c.digest.Global E

/-! ## Vocabulary of the statements -/

/-- A record resolves in a list of directories when one of them holds a
regular file at the record's path. -/
def Resolves (E : Env) (dirs : List String) (fi : FileInfo) : Prop :=
  ∃ d ∈ dirs, E.isRegular (E.Join d fi.File) = true

instance (E : Env) (dirs : List String) (fi : FileInfo) : Decidable (Resolves E dirs fi) := by
  unfold Resolves
  infer_instance

/-- The aggregate of a list of records: how many they are and the sum of
their recorded sizes. -/
def aggregateOf (infos : List FileInfo) : Coze :=
  { Count := infos.length, Size := (infos.map fun fi => fi.Size).sum }

/-- The aggregate after one `Update` per record of a list, from a given one. -/
def updateAll (cz : Coze) (infos : List FileInfo) : Coze :=
  infos.foldl (fun a fi => a.Update fi.Size) cz

/-- The bytes `compareFiles` streams into the digest for a record: none when
the record resolves in no directory or its file cannot be opened, else the
bytes `io.Copy` delivered, whether or not the copy then failed. -/
def streamedOf (E : Env) (dirs : List String) (fi : FileInfo) : List Byte :=
  if (lookupFile E fi dirs).2 then
    match E.copy (lookupFile E fi dirs).1.File with
    | .openFails => []
    | .streamed bytes _ => bytes
  else []

/-- The records of a list that resolve in the directories. -/
def resolved (E : Env) (dirs : List String) (infos : List FileInfo) : List FileInfo :=
  infos.filter fun fi => decide (Resolves E dirs fi)

/-! ## A concrete environment

A small file tree and manifest on which the definitions can be evaluated. -/

/-- A one-byte checksum: the sum of the bytes modulo 256. -/
def demoHash (bs : List Byte) : List Byte := [bs.foldl (fun a b => a + b) 0]

/-- Two directories `d` and `e`: `d/a` holds the bytes 1 2 3, `e/a` the byte
9, `e/b` the bytes 4 5, reading `e/c` fails after the byte 7, and `e/k`
cannot be opened. -/
def demoEnv : Env where
  hash := demoHash
  size := 1
  Clean := fun s => if s == "d/" then "d" else s
  Join := fun d p => d ++ "/" ++ p
  isRegular := fun p => p == "d/a" || p == "e/a" || p == "e/b" || p == "e/c" || p == "e/k"
  copy := fun p =>
    if p == "d/a" then .streamed [1, 2, 3] false
    else if p == "e/a" then .streamed [9] false
    else if p == "e/b" then .streamed [4, 5] false
    else if p == "e/c" then .streamed [7] true
    else .openFails
  FormatSize := fun n => toString n ++ "B"

/-- The record of `a` as `d/a` holds it. -/
def recA : FileInfo := { File := "a", Size := 3, Curr := [6] }

/-- The record of `b` with a checksum `e/b` does not have. -/
def recB : FileInfo := { File := "b", Size := 2, Curr := [0] }

/-- The record of a path present in no directory. -/
def recZ : FileInfo := { File := "z", Size := 5, Curr := [1] }

/-- A comparer over a manifest of the given records and trailing bytes, with
a digest nothing was written to. -/
def demoComparer (verbose : Bool) (infos : List FileInfo) (rest : List Byte) : Comparer :=
  { digest := NewDigest, pretty := false, verbose := verbose, infos := infos, rest := rest }

/-- The eight bytes of a small number in big-endian order. -/
def small (n : Byte) : List Byte := [0, 0, 0, 0, 0, 0, 0, n]

/-! ## Path resolution -/

theorem lookupFile_size (E : Env) (fi : FileInfo) (dirs : List String) :
    (lookupFile E fi dirs).1.Size = fi.Size := by
  induction dirs with
  | nil => rfl
  | cons d ds ih =>
    simp only [lookupFile]
    split
    · rfl
    · exact ih

theorem lookupFile_curr (E : Env) (fi : FileInfo) (dirs : List String) :
    (lookupFile E fi dirs).1.Curr = fi.Curr := by
  induction dirs with
  | nil => rfl
  | cons d ds ih =>
    simp only [lookupFile]
    split
    · rfl
    · exact ih

theorem lookupFile_found_iff (E : Env) (fi : FileInfo) (dirs : List String) :
    (lookupFile E fi dirs).2 = true ↔ ∃ d ∈ dirs, E.isRegular (E.Join d fi.File) = true := by
  induction dirs with
  | nil => simp [lookupFile]
  | cons d ds ih =>
    simp only [lookupFile]
    by_cases h : E.isRegular (E.Join d fi.File) = true
    · simp [h]
    · simp [h, ih]

theorem lookupFile_none (E : Env) (fi : FileInfo) (dirs : List String)
    (h : (lookupFile E fi dirs).2 = false) : (lookupFile E fi dirs).1 = fi := by
  induction dirs with
  | nil => rfl
  | cons d ds ih =>
    simp only [lookupFile] at h ⊢
    by_cases hd : E.isRegular (E.Join d fi.File) = true
    · simp [hd] at h
    · simp only [hd] at h ⊢
      exact ih h

theorem lookupFile_append (E : Env) (fi : FileInfo) (pre : List String) (d : String)
    (post : List String) (hpre : ∀ x ∈ pre, E.isRegular (E.Join x fi.File) = false)
    (hd : E.isRegular (E.Join d fi.File) = true) :
    lookupFile E fi (pre ++ d :: post) = ({ fi with File := E.Join d fi.File }, true) := by
  induction pre with
  | nil => simp [lookupFile, hd]
  | cons x xs ih =>
    have hx : E.isRegular (E.Join x fi.File) = false := hpre x (by simp)
    have hxs : ∀ y ∈ xs, E.isRegular (E.Join y fi.File) = false :=
      fun y hy => hpre y (by simp [hy])
    simp [lookupFile, hx, ih hxs]

theorem lookupFile_split (E : Env) (fi : FileInfo) (dirs : List String)
    (h : (lookupFile E fi dirs).2 = true) :
    ∃ pre d post, dirs = pre ++ d :: post ∧
      (∀ x ∈ pre, E.isRegular (E.Join x fi.File) = false) ∧
      E.isRegular (E.Join d fi.File) = true := by
  induction dirs with
  | nil => simp [lookupFile] at h
  | cons d ds ih =>
    by_cases hd : E.isRegular (E.Join d fi.File) = true
    · exact ⟨[], d, ds, rfl, by simp, hd⟩
    · simp only [lookupFile, hd] at h
      obtain ⟨pre, d1, post, h1, h2, h3⟩ := ih h
      refine ⟨d :: pre, d1, post, by simp [h1], ?_, h3⟩
      intro x hx
      rcases List.mem_cons.mp hx with rfl | hx
      · simpa using hd
      · exact h2 x hx

/-- Claim C7. `lookupFile` reports found exactly when some directory of the
list has a regular file at the joined path; the path it then returns is the
joined path of the earliest such directory, whatever directories follow it;
and when it reports not found it returns the record unchanged. -/
theorem lookupFile_first_match (E : Env) (fi : FileInfo) (dirs : List String) :
    ((lookupFile E fi dirs).2 = true ↔
        ∃ d ∈ dirs, E.isRegular (E.Join d fi.File) = true) ∧
    ((lookupFile E fi dirs).2 = true →
        ∃ pre d post, dirs = pre ++ d :: post ∧
          (∀ x ∈ pre, E.isRegular (E.Join x fi.File) = false) ∧
          E.isRegular (E.Join d fi.File) = true ∧
          (lookupFile E fi dirs).1 = { fi with File := E.Join d fi.File } ∧
          ∀ later, lookupFile E fi (pre ++ d :: later) = lookupFile E fi dirs) ∧
    ((lookupFile E fi dirs).2 = false → lookupFile E fi dirs = (fi, false)) := by
  refine ⟨lookupFile_found_iff E fi dirs, ?_, ?_⟩
  · intro h
    obtain ⟨pre, d, post, h1, h2, h3⟩ := lookupFile_split E fi dirs h
    refine ⟨pre, d, post, h1, h2, h3, ?_, ?_⟩
    · rw [h1, lookupFile_append E fi pre d post h2 h3]
    · intro later
      rw [h1, lookupFile_append E fi pre d post h2 h3,
        lookupFile_append E fi pre d later h2 h3]
  · intro h
    exact Prod.ext (lookupFile_none E fi dirs h) h

/-- A run of claim C7: with directories `d` and `e` both holding `a`, the
record of `a` resolves to `d/a`, and the record of `z` is returned as it is. -/
theorem lookupFile_first_match_witness :
    lookupFile demoEnv recA ["d", "e"] = ({ recA with File := "d/a" }, true) ∧
    lookupFile demoEnv recZ ["d", "e"] = (recZ, false) :=
  ⟨by decide, (lookupFile_first_match demoEnv recZ ["d", "e"]).2.2 (by decide)⟩

/-! ## Listing -/

theorem resolves_iff (E : Env) (dirs : List String) (fi : FileInfo) :
    Resolves E dirs fi ↔ (lookupFile E fi dirs).2 = true :=
  (lookupFile_found_iff E fi dirs).symm

theorem aggregateOf_cons (fi : FileInfo) (is : List FileInfo) :
    aggregateOf (fi :: is) =
      { Count := (aggregateOf is).Count + 1, Size := fi.Size + (aggregateOf is).Size } := by
  simp [aggregateOf]

/-- The aggregate after a run of updates, in 64-bit arithmetic. -/
theorem updateAll_eq (cz : Coze) (is : List FileInfo)
    (hc : cz.Count < 2 ^ 64) (hs : cz.Size < 2 ^ 64) :
    updateAll cz is =
      { Count := (cz.Count + (aggregateOf is).Count) % 2 ^ 64,
        Size := (cz.Size + (aggregateOf is).Size) % 2 ^ 64 } := by
  induction is generalizing cz with
  | nil =>
    cases cz
    simp only at hc hs
    simp only [updateAll, aggregateOf, List.foldl_nil, List.length_nil, List.map_nil,
      List.sum_nil, Nat.add_zero, Nat.mod_eq_of_lt hc, Nat.mod_eq_of_lt hs]
  | cons i is ih =>
    have h1 : (cz.Update i.Size).Count < 2 ^ 64 := Nat.mod_lt _ (by norm_num)
    have h2 : (cz.Update i.Size).Size < 2 ^ 64 := Nat.mod_lt _ (by norm_num)
    have hstep : updateAll cz (i :: is) = updateAll (cz.Update i.Size) is := rfl
    rw [hstep, ih _ h1 h2, aggregateOf_cons]
    simp only [Coze.Update, Coze.mk.injEq]
    constructor <;> omega

/-- The aggregate after a run of updates from zero, when the count and the
sum fit in 64 bits. -/
theorem updateAll_of_lt (is : List FileInfo) (hn : is.length < 2 ^ 64)
    (hsum : (is.map fun fi => fi.Size).sum < 2 ^ 64) :
    updateAll { Count := 0, Size := 0 } is = aggregateOf is := by
  rw [updateAll_eq _ is (by norm_num) (by norm_num)]
  have h1 : (aggregateOf is).Count < 2 ^ 64 := hn
  have h2 : (aggregateOf is).Size < 2 ^ 64 := hsum
  cases hagg : aggregateOf is
  rw [hagg] at h1 h2
  simp only at h1 h2
  simp only [Nat.zero_add, Nat.mod_eq_of_lt h1, Nat.mod_eq_of_lt h2]

/-- The lines `List` prints for records that all resolve. -/
theorem listLoop_all (E : Env) (c : Comparer) (dirs : List String) (is : List FileInfo)
    (cz : Coze) (h : ∀ fi ∈ is, Resolves E dirs fi) :
    listLoop E c dirs is cz =
      ([], updateAll cz is, none,
        if c.verbose then
          is.map fun fi => listLine E c.pretty (c.digest.Local E) (lookupFile E fi dirs).1
        else []) := by
  induction is generalizing cz with
  | nil => simp [listLoop, updateAll]
  | cons i is ih =>
    have hi : (lookupFile E i dirs).2 = true := (resolves_iff E dirs i).mp (h i (by simp))
    have his : ∀ fi ∈ is, Resolves E dirs fi := fun fi hfi => h fi (by simp [hfi])
    have hstep : updateAll cz (i :: is) = updateAll (cz.Update i.Size) is := rfl
    rw [listLoop]
    simp only [hi, Bool.not_true, Bool.false_eq_true, if_false, ih _ his, lookupFile_size,
      hstep]
    cases hv : c.verbose <;> simp

theorem listLoop_stop (E : Env) (c : Comparer) (dirs : List String)
    (pre : List FileInfo) (bad : FileInfo) (post : List FileInfo) (cz : Coze)
    (h : ∀ fi ∈ pre, Resolves E dirs fi) (hbad : ¬ Resolves E dirs bad) :
    listLoop E c dirs (pre ++ bad :: post) cz =
      (post, updateAll cz pre, some (.noSuchFile bad.File),
        if c.verbose then
          pre.map fun fi => listLine E c.pretty (c.digest.Local E) (lookupFile E fi dirs).1
        else []) := by
  induction pre generalizing cz with
  | nil =>
    have hb : (lookupFile E bad dirs).2 = false := by
      simpa [resolves_iff] using hbad
    simp [listLoop, hb, lookupFile_none E bad dirs hb, updateAll]
  | cons i is ih =>
    have hi : (lookupFile E i dirs).2 = true := (resolves_iff E dirs i).mp (h i (by simp))
    have his : ∀ fi ∈ is, Resolves E dirs fi := fun fi hfi => h fi (by simp [hfi])
    have hstep : updateAll cz (i :: is) = updateAll (cz.Update i.Size) is := rfl
    rw [List.cons_append, listLoop]
    simp only [hi, Bool.not_true, Bool.false_eq_true, if_false, ih _ his, lookupFile_size,
      hstep]
    cases hv : c.verbose <;> simp

/-- A list of records either resolves entirely or splits at its first
unresolved record. -/
theorem split_first_unresolved (E : Env) (dirs : List String) (is : List FileInfo) :
    (∀ fi ∈ is, Resolves E dirs fi) ∨
    ∃ pre bad post, is = pre ++ bad :: post ∧ (∀ fi ∈ pre, Resolves E dirs fi) ∧
      ¬ Resolves E dirs bad := by
  induction is with
  | nil => left; simp
  | cons i is ih =>
    by_cases hi : Resolves E dirs i
    · rcases ih with h | ⟨pre, bad, post, h1, h2, h3⟩
      · left
        intro fi hfi
        rcases List.mem_cons.mp hfi with rfl | hfi
        · exact hi
        · exact h fi hfi
      · right
        refine ⟨i :: pre, bad, post, by simp [h1], ?_, h3⟩
        intro fi hfi
        rcases List.mem_cons.mp hfi with rfl | hfi
        · exact hi
        · exact h2 fi hfi
    · right
      exact ⟨[], i, is, rfl, by simp, hi⟩

/-- Claim C8. `List` returns an error exactly when some record resolves in no
directory. At the first such record it returns the error carrying that
record's recorded path, the aggregate of the records before it (their number
and the sum of their recorded sizes, when these fit in 64 bits) and one line
for each of them when verbose; the records after it have no influence on the
result. -/
theorem List_fails_at_first_missing (E : Env) (c : Comparer) (dirs : List String) :
    ((Comparer.List E c dirs).err ≠ none ↔
        ∃ fi ∈ c.infos, ¬ Resolves E (dirs.map E.Clean) fi) ∧
    (∀ pre bad post, c.infos = pre ++ bad :: post →
        (∀ fi ∈ pre, Resolves E (dirs.map E.Clean) fi) →
        ¬ Resolves E (dirs.map E.Clean) bad →
        (Comparer.List E c dirs).err = some (.noSuchFile bad.File) ∧
        (pre.length < 2 ^ 64 → (pre.map fun fi => fi.Size).sum < 2 ^ 64 →
          (Comparer.List E c dirs).cz =
            { Count := pre.length, Size := (pre.map fun fi => fi.Size).sum }) ∧
        (Comparer.List E c dirs).out.length = (if c.verbose then pre.length else 0) ∧
        ∀ later,
          (Comparer.List E { c with infos := pre ++ bad :: later } dirs).err =
              (Comparer.List E c dirs).err ∧
          (Comparer.List E { c with infos := pre ++ bad :: later } dirs).cz =
              (Comparer.List E c dirs).cz ∧
          (Comparer.List E { c with infos := pre ++ bad :: later } dirs).out =
              (Comparer.List E c dirs).out) := by
  constructor
  · rcases split_first_unresolved E (dirs.map E.Clean) c.infos with h | ⟨pre, bad, post, h1, h2, h3⟩
    · simp only [Comparer.List, listLoop_all E c _ c.infos _ h]
      constructor
      · intro hne
        exact absurd rfl hne
      · rintro ⟨fi, hfi, hn⟩
        exact absurd (h fi hfi) hn
    · simp only [Comparer.List, h1, listLoop_stop E c _ pre bad post _ h2 h3]
      constructor
      · intro _
        exact ⟨bad, by simp, h3⟩
      · intro _
        simp
  · intro pre bad post h1 h2 h3
    simp only [Comparer.List, h1, listLoop_stop E c _ pre bad post _ h2 h3]
    refine ⟨trivial, ?_, ?_, ?_⟩
    · intro hn hsum
      exact updateAll_of_lt pre hn hsum
    · cases c.verbose <;> simp
    · intro later
      have := listLoop_stop E { c with infos := pre ++ bad :: later } (dirs.map E.Clean)
        pre bad later { Count := 0, Size := 0 } h2 h3
      simp only [this]
      exact ⟨trivial, trivial, trivial⟩

/-- A run of claim C8: with `z` missing between `a` and `b`, `List` stops with
the error naming `z`, having counted and reported `a` alone. -/
theorem List_fails_at_first_missing_witness :
    (Comparer.List demoEnv (demoComparer true [recA, recZ, recB] []) ["d/", "e"]).err
        = some (.noSuchFile "z") ∧
    (Comparer.List demoEnv (demoComparer true [recA, recZ, recB] []) ["d/", "e"]).cz
        = { Count := 1, Size := 3 } ∧
    (Comparer.List demoEnv (demoComparer true [recA, recZ, recB] []) ["d/", "e"]).out.length
        = 1 :=
  have h := (List_fails_at_first_missing demoEnv (demoComparer true [recA, recZ, recB] [])
    ["d/", "e"]).2 [recA] recZ [recB] rfl (by decide) (by decide)
  ⟨h.1, h.2.1 (by decide) (by decide), h.2.2.1⟩

/-- Claim C9. When every record resolves, and the number of records and the
sum of their recorded sizes fit in 64 bits, `List` returns without error the
aggregate whose count is the number of records and whose size is the sum of
their recorded sizes, and leaves the digest as it was, so that its local and
global values are unchanged. -/
theorem List_aggregate (E : Env) (c : Comparer) (dirs : List String)
    (h : ∀ fi ∈ c.infos, Resolves E (dirs.map E.Clean) fi)
    (hcount : c.infos.length < 2 ^ 64)
    (hsum : (c.infos.map fun fi => fi.Size).sum < 2 ^ 64) :
    (Comparer.List E c dirs).err = none ∧
    (Comparer.List E c dirs).cz =
      { Count := c.infos.length, Size := (c.infos.map fun fi => fi.Size).sum } ∧
    (Comparer.List E c dirs).c.digest = c.digest ∧
    (Comparer.List E c dirs).c.digest.Local E = c.digest.Local E ∧
    Checksum E (Comparer.List E c dirs).c = Checksum E c := by
  simp only [Comparer.List, listLoop_all E c _ c.infos _ h, Checksum]
  exact ⟨trivial, updateAll_of_lt c.infos hcount hsum, trivial, trivial, trivial⟩

/-- A run of claim C9: `a`, recorded here with size 100 though `d/a` holds
three bytes, and `b` both resolve, and `List` returns the aggregate 2 and 102. -/
theorem List_aggregate_witness :
    (Comparer.List demoEnv (demoComparer false [{ recA with Size := 100 }, recB] [])
      ["d/", "e"]).cz = { Count := 2, Size := 102 } :=
  (List_aggregate demoEnv (demoComparer false [{ recA with Size := 100 }, recB] [])
    ["d/", "e"] (by decide) (by decide) (by decide)).2.1

theorem toInt64_of_lt (n : Nat) (h : n < 2 ^ 63) : toInt64 n = (n : Int) := by
  have h1 : n % 2 ^ 64 = n := Nat.mod_eq_of_lt (by omega)
  unfold toInt64
  rw [h1, if_pos h]

theorem toString_toInt64 (n : Nat) (h : n < 2 ^ 63) : toString (toInt64 n) = toString n := by
  rw [toInt64_of_lt n h]
  rfl

/-- Claim C10, as the code has it. In listing mode with verbose reporting
on, `List` prints exactly one line for each record up to the first one that
does not resolve, in manifest order, of the form size, two blanks, a checksum
in hexadecimal, two blanks, path, newline. The size column is the recorded
size (below 2^63) in decimal padded to 12 columns, or formatted by
`FormatSize` and padded to 8 when pretty; the path column is the path
`lookupFile` resolved the record to. -/
theorem List_verbose_lines (E : Env) (c : Comparer) (dirs : List String)
    (pre tail : List FileInfo)
    (hv : c.verbose = true)
    (hsplit : c.infos = pre ++ tail)
    (hres : ∀ fi ∈ pre, Resolves E (dirs.map E.Clean) fi)
    (hstop : ∀ bad ∈ tail.head?, ¬ Resolves E (dirs.map E.Clean) bad)
    (hsz : ∀ fi ∈ pre, fi.Size < 2 ^ 63) :
    List.Forall₂
      (fun fi line => ∃ sum : List Byte,
        line =
          (if c.pretty then padRight 8 (E.FormatSize fi.Size)
            else padRight 12 (toString fi.Size))
          ++ "  " ++ hex sum ++ "  " ++ (lookupFile E fi (dirs.map E.Clean)).1.File ++ "\n")
      pre (Comparer.List E c dirs).out := by
  have hout : (Comparer.List E c dirs).out =
      pre.map fun fi =>
        listLine E c.pretty (c.digest.Local E) (lookupFile E fi (dirs.map E.Clean)).1 := by
    cases tail with
    | nil =>
      rw [List.append_nil] at hsplit
      simp only [Comparer.List, hsplit, listLoop_all E c _ pre _ hres, hv, if_true]
    | cons bad post =>
      have hbad : ¬ Resolves E (dirs.map E.Clean) bad := hstop bad (by simp)
      simp only [Comparer.List, hsplit, listLoop_stop E c _ pre bad post _ hres hbad, hv,
        if_true]
  rw [hout, List.forall₂_map_right_iff]
  apply List.forall₂_same.mpr
  intro fi hfi
  refine ⟨c.digest.Local E, ?_⟩
  simp only [listLine, sizeField, lookupFile_size, toString_toInt64 fi.Size (hsz fi hfi)]

/-- A run of claim C10 as the code has it: `a` and `b` are listed, and the
listing stops at the missing `z` before the second `a`. -/
theorem List_verbose_lines_witness :
    List.Forall₂
      (fun fi line => ∃ sum : List Byte,
        line = padRight 12 (toString fi.Size)
          ++ "  " ++ hex sum ++ "  " ++ (lookupFile demoEnv fi ["d", "e"]).1.File ++ "\n")
      [recA, recB]
      (Comparer.List demoEnv (demoComparer true [recA, recB, recZ, recA] []) ["d/", "e"]).out :=
  List_verbose_lines demoEnv (demoComparer true [recA, recB, recZ, recA] []) ["d/", "e"]
    [recA, recB] [recZ, recA] rfl rfl (by decide) (by decide) (by decide)

/-- Claim C10 fails as stated. For the record of `a`, with recorded checksum
06 and recorded path `a`, `List` prints the line of the digest's local value
00 and the resolved path `d/a`, not the line of the recorded checksum and path. -/
theorem List_line_not_recorded :
    (Comparer.List demoEnv (demoComparer true [recA] []) ["d"]).out
      = ["3             00  d/a\n"] ∧
    listLine demoEnv false recA.Curr recA = "3             06  a\n" ∧
    (Comparer.List demoEnv (demoComparer true [recA] []) ["d"]).out
      ≠ [listLine demoEnv false recA.Curr recA] := by
  decide

/-! ## One record of a comparison -/

theorem streamedOf_unresolved (E : Env) (dirs : List String) (fi : FileInfo)
    (h : ¬ Resolves E dirs fi) : streamedOf E dirs fi = [] := by
  have hb : (lookupFile E fi dirs).2 = false := by
    simpa [resolves_iff] using h
  simp [streamedOf, hb]

theorem digestFile_digest (E : Env) (d : Digest) (fi : FileInfo) :
    (digestFile E d fi).1 =
      match E.copy fi.File with
      | .openFails => d
      | .streamed bytes _ => d.Write bytes := by
  unfold digestFile
  cases E.copy fi.File with
  | openFails => rfl
  | streamed bytes failed =>
    simp only
    split_ifs <;> rfl

theorem compareEntry_reset (E : Env) (dirs : List String) (d : Digest) (cz : Coze)
    (fi : FileInfo) :
    (compareEntry E dirs d cz fi).1.Reset =
      { loc := [], glob := d.glob ++ streamedOf E dirs fi } := by
  unfold compareEntry streamedOf
  cases hf : (lookupFile E fi dirs).2
  · simp [hf, Digest.Reset]
  · simp only [hf, if_true, digestFile_digest]
    cases E.copy (lookupFile E fi dirs).1.File <;> simp [Digest.Reset, Digest.Write]

theorem compareEntry_cz (E : Env) (dirs : List String) (d : Digest) (cz : Coze)
    (fi : FileInfo) :
    (compareEntry E dirs d cz fi).2.1 =
      if Resolves E dirs fi then cz.Update fi.Size else cz := by
  unfold compareEntry
  cases hf : (lookupFile E fi dirs).2
  · have : ¬ Resolves E dirs fi := by simp [resolves_iff, hf]
    simp [hf, this]
  · have : Resolves E dirs fi := (resolves_iff E dirs fi).mpr hf
    simp [hf, this, lookupFile_size]

theorem compareEntry_fresh (E : Env) (dirs : List String) (d : Digest) (cz : Coze)
    (fi : FileInfo) (hloc : d.loc = []) :
    (compareEntry E dirs d cz fi).2.2 =
      (compareEntry E dirs NewDigest { Count := 0, Size := 0 } fi).2.2 := by
  unfold compareEntry
  cases hf : (lookupFile E fi dirs).2
  · simp [hf, Digest.Local, hloc, NewDigest]
  · simp only [hf, if_true]
    unfold digestFile
    cases E.copy (lookupFile E fi dirs).1.File with
    | openFails => simp [Digest.Local, hloc, NewDigest]
    | streamed bytes failed =>
      simp only [Digest.Local, Digest.Write, hloc, NewDigest, List.nil_append]
      split_ifs <;> rfl

theorem compareEntry_sum (E : Env) (dirs : List String) (fi : FileInfo) :
    (compareEntry E dirs NewDigest { Count := 0, Size := 0 } fi).2.2.sum =
      E.hash (streamedOf E dirs fi) := by
  unfold compareEntry streamedOf
  cases hf : (lookupFile E fi dirs).2
  · simp [hf, Digest.Local, NewDigest]
  · simp only [hf, if_true, digestFile_digest]
    cases E.copy (lookupFile E fi dirs).1.File <;>
      simp [Digest.Local, Digest.Write, NewDigest]

theorem toInt64_eq_iff (n s : Nat) (hn : n < 2 ^ 63) (hs : s < 2 ^ 64) :
    toInt64 n = toInt64 s ↔ n = s := by
  rw [toInt64_of_lt n hn]
  have h1 : s % 2 ^ 64 = s := Nat.mod_eq_of_lt hs
  unfold toInt64
  rw [h1]
  split_ifs with h
  · exact Int.ofNat_inj
  · constructor
    · intro he
      have : (s : Int) < 2 ^ 64 := by exact_mod_cast hs
      omega
    · intro he
      omega

/-- The status `compareFiles` gives a record, in the words of the spec. -/
theorem compareEntry_status (E : Env) (dirs : List String) (fi : FileInfo)
    (hs : fi.Size < 2 ^ 64) (hn : (streamedOf E dirs fi).length < 2 ^ 63) :
    ((compareEntry E dirs NewDigest { Count := 0, Size := 0 } fi).2.2.st = Deleted ↔
        ¬ Resolves E dirs fi) ∧
    ((compareEntry E dirs NewDigest { Count := 0, Size := 0 } fi).2.2.st = Identical ↔
        Resolves E dirs fi ∧ ∃ bytes,
          E.copy (lookupFile E fi dirs).1.File = .streamed bytes false ∧
          bytes.length = fi.Size ∧ E.hash bytes = fi.Curr) ∧
    ((compareEntry E dirs NewDigest { Count := 0, Size := 0 } fi).2.2.st = Modified ↔
        Resolves E dirs fi ∧ ¬ ∃ bytes,
          E.copy (lookupFile E fi dirs).1.File = .streamed bytes false ∧
          bytes.length = fi.Size ∧ E.hash bytes = fi.Curr) := by
  unfold compareEntry
  cases hf : (lookupFile E fi dirs).2
  · have hr : ¬ Resolves E dirs fi := by simp [resolves_iff, hf]
    simp [hf, hr, Deleted, Identical, Modified]
  · have hr : Resolves E dirs fi := (resolves_iff E dirs fi).mpr hf
    simp only [hf, if_true, hr, not_true_eq_false, true_and]
    unfold digestFile
    cases hc : E.copy (lookupFile E fi dirs).1.File with
    | openFails => simp [Deleted, Identical, Modified]
    | streamed bytes failed =>
      have hlen : bytes.length < 2 ^ 63 := by
        simpa [streamedOf, hf, hc] using hn
      have hsz := toInt64_eq_iff bytes.length fi.Size hlen hs
      simp only [lookupFile_size, lookupFile_curr, Digest.Local, Digest.Write, NewDigest,
        List.nil_append]
      cases failed with
      | true => simp [Deleted, Identical, Modified]
      | false =>
        by_cases h1 : bytes.length = fi.Size
        · by_cases h2 : fi.Curr = E.hash bytes
          · simp [hsz, h1, h2, Deleted, Identical, Modified]
          · have h3 : ¬ E.hash bytes = fi.Curr := fun h => h2 h.symm
            simp [hsz, h1, h2, h3, Deleted, Identical, Modified]
        · simp [hsz, h1, Deleted, Identical, Modified]

/-! ## The loop of `compareFiles` -/

theorem resolved_cons (E : Env) (dirs : List String) (fi : FileInfo) (is : List FileInfo) :
    resolved E dirs (fi :: is) =
      if Resolves E dirs fi then fi :: resolved E dirs is else resolved E dirs is := by
  by_cases h : Resolves E dirs fi <;> simp [resolved, List.filter_cons, h]

/-- What the loop of `compareFiles` computes from a digest whose local
accumulator is empty. -/
theorem compareLoop_spec (E : Env) (dirs : List String) (is : List FileInfo) (d : Digest)
    (cz : Coze) (hloc : d.loc = []) :
    compareLoop E dirs is d cz =
      ({ loc := [], glob := d.glob ++ is.flatMap (streamedOf E dirs) },
        updateAll cz (resolved E dirs is),
        is.map fun fi => (compareEntry E dirs NewDigest { Count := 0, Size := 0 } fi).2.2) := by
  induction is generalizing d cz with
  | nil =>
    cases d
    simp only at hloc
    simp [compareLoop, updateAll, resolved, hloc]
  | cons i is ih =>
    rw [compareLoop]
    simp only [compareEntry_reset, compareEntry_cz, compareEntry_fresh E dirs d cz i hloc]
    rw [ih _ _ rfl, resolved_cons]
    by_cases hi : Resolves E dirs i
    · simp only [hi, if_true, List.flatMap_cons, List.map_cons, List.append_assoc]
      rfl
    · simp only [hi, if_false, List.flatMap_cons, List.map_cons, List.append_assoc]

/-! ## Classification, accounting and the running digest -/

/-- Claim C1. From a digest whose local accumulator is empty, `compareFiles`
returns no error and reports one status per record, in manifest order: Deleted
exactly when no directory holds a regular file at the record's path; Identical
exactly when the path resolves, the file is streamed without error, the number
of bytes streamed is the recorded size and their digest is the recorded
checksum; Modified in every other case. -/
theorem compareFiles_classifies (E : Env) (c : Comparer) (dirs : List String)
    (hloc : c.digest.loc = [])
    (hsize : ∀ fi ∈ c.infos, fi.Size < 2 ^ 64)
    (hlen : ∀ fi ∈ c.infos, (streamedOf E dirs fi).length < 2 ^ 63) :
    (compareFiles E c dirs).err = none ∧
    List.Forall₂
      (fun fi e =>
        (e.st = Deleted ↔ ¬ Resolves E dirs fi) ∧
        (e.st = Identical ↔
          Resolves E dirs fi ∧ ∃ bytes,
            E.copy (lookupFile E fi dirs).1.File = .streamed bytes false ∧
            bytes.length = fi.Size ∧ E.hash bytes = fi.Curr) ∧
        (e.st = Modified ↔
          Resolves E dirs fi ∧ ¬ ∃ bytes,
            E.copy (lookupFile E fi dirs).1.File = .streamed bytes false ∧
            bytes.length = fi.Size ∧ E.hash bytes = fi.Curr))
      c.infos (compareFiles E c dirs).trace := by
  refine ⟨rfl, ?_⟩
  simp only [compareFiles, compareLoop_spec E dirs c.infos c.digest _ hloc]
  rw [List.forall₂_map_right_iff]
  apply List.forall₂_same.mpr
  intro fi hfi
  exact compareEntry_status E dirs fi (hsize fi hfi) (hlen fi hfi)

/-- A run of claim C1: `a` is Identical, `z` Deleted, `b` Modified. -/
theorem compareFiles_classifies_witness :
    (compareFiles demoEnv (demoComparer false [recA, recZ, recB] []) ["d", "e"]).err = none ∧
    ((compareFiles demoEnv (demoComparer false [recA, recZ, recB] []) ["d", "e"]).trace.map
      fun e => e.st) = [Identical, Deleted, Modified] :=
  ⟨(compareFiles_classifies demoEnv (demoComparer false [recA, recZ, recB] []) ["d", "e"]
      rfl (by decide) (by decide)).1, by decide⟩

theorem compareLoop_cz (E : Env) (dirs : List String) (is : List FileInfo) (d : Digest)
    (cz : Coze) :
    (compareLoop E dirs is d cz).2.1 = updateAll cz (resolved E dirs is) := by
  induction is generalizing d cz with
  | nil => simp [compareLoop, updateAll, resolved]
  | cons i is ih =>
    rw [compareLoop]
    simp only [ih, compareEntry_cz, resolved_cons]
    by_cases hi : Resolves E dirs i
    · simp only [hi, if_true]
      rfl
    · simp only [hi, if_false]

theorem compareLoop_glob (E : Env) (dirs : List String) (is : List FileInfo) (d : Digest)
    (cz : Coze) :
    (compareLoop E dirs is d cz).1.glob = d.glob ++ is.flatMap (streamedOf E dirs) := by
  induction is generalizing d cz with
  | nil => simp [compareLoop]
  | cons i is ih =>
    rw [compareLoop]
    simp only [ih, compareEntry_reset, List.flatMap_cons, List.append_assoc]

theorem Compare_cz (E : Env) (c : Comparer) (dirs : List String) :
    (Compare E c dirs).cz = (compareFiles E c (dirs.map E.Clean)).cz := by
  simp [Compare, compareFiles]

theorem Compare_trace (E : Env) (c : Comparer) (dirs : List String) :
    (Compare E c dirs).trace = (compareFiles E c (dirs.map E.Clean)).trace := by
  simp [Compare, compareFiles]

theorem Compare_digest (E : Env) (c : Comparer) (dirs : List String) :
    (Compare E c dirs).c.digest = (compareFiles E c (dirs.map E.Clean)).c.digest := by
  simp only [Compare, compareFiles, compare]
  split_ifs <;> try rfl
  split <;> try rfl
  split_ifs <;> rfl

theorem compareFiles_cz (E : Env) (c : Comparer) (dirs : List String) :
    (compareFiles E c dirs).cz = updateAll { Count := 0, Size := 0 } (resolved E dirs c.infos) := by
  simp only [compareFiles, compareLoop_cz]

theorem resolved_length_le (E : Env) (dirs : List String) (is : List FileInfo) :
    (resolved E dirs is).length ≤ is.length :=
  List.length_filter_le _ _

theorem resolved_sum_le (E : Env) (dirs : List String) (is : List FileInfo) :
    ((resolved E dirs is).map fun fi => fi.Size).sum ≤ (is.map fun fi => fi.Size).sum := by
  induction is with
  | nil => simp [resolved]
  | cons i is ih =>
    rw [resolved_cons]
    by_cases hi : Resolves E dirs i
    · simp only [hi, if_true, List.map_cons, List.sum_cons]
      omega
    · simp only [hi, if_false, List.map_cons, List.sum_cons]
      omega

/-- The aggregate of `compareFiles` when the manifest's count and total size
fit in 64 bits. -/
theorem compareFiles_cz_of_lt (E : Env) (c : Comparer) (dirs : List String)
    (hcount : c.infos.length < 2 ^ 64)
    (hsum : (c.infos.map fun fi => fi.Size).sum < 2 ^ 64) :
    (compareFiles E c dirs).cz = aggregateOf (resolved E dirs c.infos) := by
  rw [compareFiles_cz]
  apply updateAll_of_lt
  · exact Nat.lt_of_le_of_lt (resolved_length_le E dirs c.infos) hcount
  · exact Nat.lt_of_le_of_lt (resolved_sum_le E dirs c.infos) hsum

/-- Claim C3, as the code has it. For a manifest whose number of records and
total recorded size fit in 64 bits, the aggregate `compareFiles` and
`Compare` return counts the records that resolve, whether Identical or
Modified, and sums their recorded sizes; a record that resolves in no
directory adds nothing to it. -/
theorem compareFiles_aggregate (E : Env) (c : Comparer) (dirs : List String)
    (hcount : c.infos.length < 2 ^ 64)
    (hsum : (c.infos.map fun fi => fi.Size).sum < 2 ^ 64) :
    (compareFiles E c dirs).cz =
      { Count := (resolved E dirs c.infos).length,
        Size := ((resolved E dirs c.infos).map fun fi => fi.Size).sum } ∧
    (Compare E c dirs).cz =
      { Count := (resolved E (dirs.map E.Clean) c.infos).length,
        Size := ((resolved E (dirs.map E.Clean) c.infos).map fun fi => fi.Size).sum } :=
  ⟨compareFiles_cz_of_lt E c dirs hcount hsum,
    by rw [Compare_cz, compareFiles_cz_of_lt E c _ hcount hsum]; rfl⟩

/-- A run of claim C3 as the code has it: of `a`, the missing `z` and the
modified `b`, the aggregate counts `a` and `b`, 2 records and 5 bytes. -/
theorem compareFiles_aggregate_witness :
    (compareFiles demoEnv (demoComparer false [recA, recZ, recB] []) ["d", "e"]).cz
      = { Count := 2, Size := 5 } :=
  (compareFiles_aggregate demoEnv (demoComparer false [recA, recZ, recB] []) ["d", "e"]
    (by decide) (by decide)).1

/-- Claim C3 fails as stated. With `a` present and `z` in no directory, the
second record is classified Deleted and the aggregate `compareFiles` and
`Compare` return is 1 and 3, not the 2 and 8 of the two records. -/
theorem compareFiles_skips_deleted :
    ((compareFiles demoEnv (demoComparer false [recA, recZ] []) ["d", "e"]).trace.map
      fun e => e.st) = [Identical, Deleted] ∧
    (compareFiles demoEnv (demoComparer false [recA, recZ] []) ["d", "e"]).cz
      = { Count := 1, Size := 3 } ∧
    (Compare demoEnv (demoComparer false [recA, recZ] []) ["d", "e"]).cz
      = { Count := 1, Size := 3 } ∧
    aggregateOf [recA, recZ] = { Count := 2, Size := 8 } ∧
    (compareFiles demoEnv (demoComparer false [recA, recZ] []) ["d", "e"]).cz
      ≠ aggregateOf [recA, recZ] := by
  decide

/-- Claim C6. From a digest whose local accumulator is empty, a compare run
leaves the global accumulator holding what it held before followed by the
bytes streamed for each record in manifest order, and the local one empty;
so `Checksum`, from a new digest, is the hash of the concatenation of the
streamed bytes. A record resolving in no directory contributes no bytes, a
resolved one contributes the bytes streamed whatever its status, and the
local digest reported for a record is the hash of that record's bytes alone. -/
theorem compareFiles_running_digest (E : Env) (c : Comparer) (dirs : List String)
    (hloc : c.digest.loc = []) :
    (compareFiles E c dirs).c.digest =
      { loc := [], glob := c.digest.glob ++ c.infos.flatMap (streamedOf E dirs) } ∧
    (c.digest = NewDigest →
      Checksum E (compareFiles E c dirs).c = E.hash (c.infos.flatMap (streamedOf E dirs)) ∧
      Checksum E (Compare E c dirs).c =
        E.hash (c.infos.flatMap (streamedOf E (dirs.map E.Clean)))) ∧
    (∀ fi, ¬ Resolves E dirs fi → streamedOf E dirs fi = []) ∧
    (∀ fi bytes failed, Resolves E dirs fi →
      E.copy (lookupFile E fi dirs).1.File = .streamed bytes failed →
      streamedOf E dirs fi = bytes) ∧
    List.Forall₂ (fun fi e => e.sum = E.hash (streamedOf E dirs fi))
      c.infos (compareFiles E c dirs).trace := by
  refine ⟨?_, ?_, streamedOf_unresolved E dirs, ?_, ?_⟩
  · simp only [compareFiles, compareLoop_spec E dirs c.infos c.digest _ hloc]
  · intro hnew
    constructor
    · simp only [Checksum, Digest.Global, compareFiles, compareLoop_glob, hnew, NewDigest,
        List.nil_append]
    · rw [Checksum, Compare_digest]
      simp only [Digest.Global, compareFiles, compareLoop_glob, hnew, NewDigest,
        List.nil_append]
  · intro fi bytes failed hr hc
    have hf : (lookupFile E fi dirs).2 = true := (resolves_iff E dirs fi).mp hr
    simp [streamedOf, hf, hc]
  · simp only [compareFiles, compareLoop_spec E dirs c.infos c.digest _ hloc]
    rw [List.forall₂_map_right_iff]
    apply List.forall₂_same.mpr
    intro fi _
    exact compareEntry_sum E dirs fi

/-- A run of claim C6: over `a` (bytes 1 2 3), the missing `z` and the
modified `b` (bytes 4 5), the global accumulator ends holding 1 2 3 4 5. -/
theorem compareFiles_running_digest_witness :
    (compareFiles demoEnv (demoComparer false [recA, recZ, recB] []) ["d", "e"]).c.digest =
      { loc := [], glob := [1, 2, 3, 4, 5] } :=
  (compareFiles_running_digest demoEnv (demoComparer false [recA, recZ, recB] []) ["d", "e"]
    rfl).1

/-! ## The trailer -/

theorem Coze.Equal_iff (c other : Coze) : c.Equal other = true ↔ c = other := by
  cases c
  cases other
  simp [Coze.Equal]

theorem ReadFull_append (b t : List Byte) (n : Nat) (h : b.length = n) :
    ReadFull (b ++ t) n = (.ok b, t) := by
  subst h
  simp [ReadFull]

theorem ReadFull_short (s : List Byte) (n : Nat) (h : s.length < n) :
    ∃ e, ReadFull s n = (.error e, []) := by
  unfold ReadFull
  rw [if_neg (by omega)]
  split_ifs
  · exact ⟨_, rfl⟩
  · exact ⟨_, rfl⟩

theorem binaryRead_append (b t : List Byte) (cur : Nat) (h : b.length = 8) :
    binaryRead (b ++ t) cur = (beUint64 b, none, t) := by
  simp [binaryRead, ReadFull_append b t 8 h]

theorem binaryRead_short (s : List Byte) (cur : Nat) (h : s.length < 8) :
    (binaryRead s cur).1 = cur ∧ (binaryRead s cur).2.2 = [] := by
  obtain ⟨e, he⟩ := ReadFull_short s 8 h
  simp [binaryRead, he]

/-- After the two numeric reads nothing is left of a reader that held fewer
than sixteen bytes. -/
theorem binaryRead_twice_short (s : List Byte) (h : s.length < 16) :
    (binaryRead (binaryRead s 0).2.2 0).2.2 = [] := by
  by_cases h8 : s.length < 8
  · rw [(binaryRead_short s 0 h8).2]
    exact (binaryRead_short [] 0 (by simp)).2
  · have hs : s = s.take 8 ++ s.drop 8 := (List.take_append_drop 8 s).symm
    have ht : (s.take 8).length = 8 := by
      rw [List.length_take]
      omega
    rw [hs, binaryRead_append _ _ 0 ht]
    apply (binaryRead_short _ 0 _).2
    rw [List.length_drop]
    omega

/-- The error of `compare` on a reader that starts with the two numeric
fields. -/
theorem compare_full (E : Env) (c : Comparer) (cz : Coze) (b1 b2 r : List Byte)
    (h : c.rest = b1 ++ (b2 ++ r)) (h1 : b1.length = 8) (h2 : b2.length = 8) :
    (compare E c cz).2.2 =
      if cz = { Count := beUint64 b1, Size := beUint64 b2 } then
        if E.size ≤ r.length then
          if c.digest.Global E = r.take E.size then none
          else some (.finalChecksum (c.digest.Global E) (r.take E.size))
        else some (if r.isEmpty then .eof else .unexpectedEOF)
      else some .finalCountSize := by
  unfold compare
  simp only [h, binaryRead_append b1 _ 0 h1, binaryRead_append b2 _ 0 h2]
  by_cases hz : cz = { Count := beUint64 b1, Size := beUint64 b2 }
  · subst hz
    have he : Coze.Equal { Count := beUint64 b1, Size := beUint64 b2 }
        { Count := beUint64 b1, Size := beUint64 b2 } = true :=
      (Coze.Equal_iff _ _).mpr rfl
    simp only [he, Bool.not_true, Bool.false_eq_true, if_false, if_true]
    unfold ReadFull
    by_cases hn : E.size ≤ r.length
    · simp only [hn, if_true]
      split_ifs <;> simp_all
    · simp only [hn, if_false]
      split_ifs <;> rfl
  · have he : cz.Equal { Count := beUint64 b1, Size := beUint64 b2 } = false := by
      rw [← Bool.not_eq_true, Coze.Equal_iff]
      exact hz
    simp [he, hz]

/-- A reader with fewer than sixteen bytes makes `compare` fail. -/
theorem compare_short (E : Env) (c : Comparer) (cz : Coze) (h : c.rest.length < 16)
    (hs : 0 < E.size) : (compare E c cz).2.2 ≠ none := by
  unfold compare
  simp only [binaryRead_twice_short c.rest h]
  split_ifs
  · simp
  · obtain ⟨e, he⟩ := ReadFull_short [] E.size (by simpa using hs)
    simp [he]

theorem Compare_err (E : Env) (c : Comparer) (dirs : List String) :
    (Compare E c dirs).err =
      (compare E (compareFiles E c (dirs.map E.Clean)).c
        (compareFiles E c (dirs.map E.Clean)).cz).2.2 := by
  simp [Compare, compareFiles]

theorem compareFiles_rest (E : Env) (c : Comparer) (dirs : List String) :
    (compareFiles E c dirs).c.rest = c.rest := rfl

/-- Claim C2. With a digest of positive size, `Compare` returns no error
exactly when what follows the records starts with a trailer whose count and
size are the aggregate of the run and whose checksum, of digest size, is the
digest's global value. A trailer whose count or size differs from the
aggregate gives the count/size error, and one that agrees on them but whose
checksum differs gives the checksum error. -/
theorem Compare_trailer (E : Env) (c : Comparer) (dirs : List String) (hs : 0 < E.size) :
    ((Compare E c dirs).err = none ↔
      ∃ b1 b2 sum tail, c.rest = b1 ++ b2 ++ sum ++ tail ∧
        b1.length = 8 ∧ b2.length = 8 ∧ sum.length = E.size ∧
        (compareFiles E c (dirs.map E.Clean)).cz
          = { Count := beUint64 b1, Size := beUint64 b2 } ∧
        Checksum E (compareFiles E c (dirs.map E.Clean)).c = sum) ∧
    (∀ b1 b2 tail, c.rest = b1 ++ b2 ++ tail → b1.length = 8 → b2.length = 8 →
      (compareFiles E c (dirs.map E.Clean)).cz ≠ { Count := beUint64 b1, Size := beUint64 b2 } →
      (Compare E c dirs).err = some .finalCountSize) ∧
    (∀ b1 b2 sum tail, c.rest = b1 ++ b2 ++ sum ++ tail →
      b1.length = 8 → b2.length = 8 → sum.length = E.size →
      (compareFiles E c (dirs.map E.Clean)).cz = { Count := beUint64 b1, Size := beUint64 b2 } →
      Checksum E (compareFiles E c (dirs.map E.Clean)).c ≠ sum →
      (Compare E c dirs).err =
        some (.finalChecksum (Checksum E (compareFiles E c (dirs.map E.Clean)).c) sum)) := by
  refine ⟨⟨?_, ?_⟩, ?_, ?_⟩
  · intro hnone
    rw [Compare_err] at hnone
    by_cases h16 : c.rest.length < 16
    · exact absurd hnone (compare_short E _ _ (by rw [compareFiles_rest]; exact h16) hs)
    · have hsplit : c.rest = c.rest.take 8 ++ ((c.rest.drop 8).take 8 ++ (c.rest.drop 8).drop 8) := by
        rw [List.take_append_drop, List.take_append_drop]
      have h1 : (c.rest.take 8).length = 8 := by
        rw [List.length_take]
        omega
      have h2 : ((c.rest.drop 8).take 8).length = 8 := by
        rw [List.length_take, List.length_drop]
        omega
      rw [compare_full E _ _ _ _ _ (by rw [compareFiles_rest]; exact hsplit) h1 h2] at hnone
      split_ifs at hnone with hz hn hg
      refine ⟨c.rest.take 8, (c.rest.drop 8).take 8, ((c.rest.drop 8).drop 8).take E.size,
        ((c.rest.drop 8).drop 8).drop E.size, ?_, h1, h2, ?_, hz, hg⟩
      · simp only [List.append_assoc, List.take_append_drop]
      · rw [List.length_take]
        omega
  · rintro ⟨b1, b2, sum, tail, hr, h1, h2, h3, hz, hg⟩
    rw [Compare_err, compare_full E _ _ b1 b2 (sum ++ tail)
      (by rw [compareFiles_rest, hr]; simp) h1 h2]
    have ht : (sum ++ tail).take E.size = sum := by
      rw [← h3]
      simp
    have hl : E.size ≤ (sum ++ tail).length := by
      rw [List.length_append]
      omega
    rw [if_pos hz, if_pos hl, ht]
    exact if_pos hg
  · intro b1 b2 tail hr h1 h2 hz
    rw [Compare_err, compare_full E _ _ b1 b2 tail
      (by rw [compareFiles_rest, hr]; simp) h1 h2]
    exact if_neg hz
  · intro b1 b2 sum tail hr h1 h2 h3 hz hg
    rw [Compare_err, compare_full E _ _ b1 b2 (sum ++ tail)
      (by rw [compareFiles_rest, hr]; simp) h1 h2]
    have ht : (sum ++ tail).take E.size = sum := by
      rw [← h3]
      simp
    have hl : E.size ≤ (sum ++ tail).length := by
      rw [List.length_append]
      omega
    rw [if_pos hz, if_pos hl, ht]
    exact if_neg hg

/-- A run of claim C2: after the record of `a`, the trailer 1, 3, 06 passes
both checks and the trailer 1, 3, 07 gives the checksum error. -/
theorem Compare_trailer_witness :
    (Compare demoEnv (demoComparer false [recA] (small 1 ++ small 3 ++ [6])) ["d"]).err
      = none ∧
    (Compare demoEnv (demoComparer false [recA] (small 1 ++ small 3 ++ [7])) ["d"]).err
      = some (.finalChecksum [6] [7]) :=
  ⟨(Compare_trailer demoEnv (demoComparer false [recA] (small 1 ++ small 3 ++ [6])) ["d"]
      (by decide)).1.mpr ⟨small 1, small 3, [6], [], by decide, by decide, by decide,
        by decide, by decide, by decide⟩,
    by decide⟩

/-! ## A tree that matches its manifest, and a manifest without trailer -/

theorem resolved_of_all (E : Env) (dirs : List String) (is : List FileInfo)
    (h : ∀ fi ∈ is, Resolves E dirs fi) : resolved E dirs is = is := by
  unfold resolved
  rw [List.filter_eq_self]
  intro fi hfi
  simpa using h fi hfi

theorem streamedOf_streamed (E : Env) (dirs : List String) (fi : FileInfo)
    (bytes : List Byte) (failed : Bool) (hr : Resolves E dirs fi)
    (hc : E.copy (lookupFile E fi dirs).1.File = .streamed bytes failed) :
    streamedOf E dirs fi = bytes := by
  have hf : (lookupFile E fi dirs).2 = true := (resolves_iff E dirs fi).mp hr
  simp [streamedOf, hf, hc]

theorem flatMap_streamedOf (E : Env) (dirs : List String)
    (files : List (FileInfo × List Byte))
    (h : ∀ p ∈ files, streamedOf E dirs p.1 = p.2) :
    (files.map Prod.fst).flatMap (streamedOf E dirs) = files.flatMap Prod.snd := by
  induction files with
  | nil => rfl
  | cons p ps ih =>
    have hp : streamedOf E dirs p.1 = p.2 := h p (by simp)
    have hps : ∀ q ∈ ps, streamedOf E dirs q.1 = q.2 := fun q hq => h q (by simp [hq])
    simp only [List.map_cons, List.flatMap_cons, hp, ih hps]

theorem beUint64_foldl_lt (bs : List Byte) (a k : Nat) (ha : a < 256 ^ k) :
    bs.foldl (fun a b => a * 256 + b.val) a < 256 ^ (k + bs.length) := by
  induction bs generalizing a k with
  | nil => simpa using ha
  | cons b bs ih =>
    have hb : b.val < 256 := b.isLt
    have hstep : a * 256 + b.val < 256 ^ (k + 1) := by
      rw [pow_succ]
      omega
    have := ih (a * 256 + b.val) (k + 1) hstep
    simpa [List.foldl_cons, Nat.add_assoc, Nat.add_comm 1] using this

/-- Eight bytes decode to a 64-bit value. -/
theorem beUint64_lt (bs : List Byte) (h : bs.length = 8) : beUint64 bs < 2 ^ 64 := by
  have := beUint64_foldl_lt bs 0 0 (by norm_num)
  rw [h] at this
  simpa [beUint64] using this

/-- Claim C4. Take a manifest whose records are those of `files`, each with
the size (below 2^63) and the checksum of its bytes, followed by the trailer
holding their number, the sum of their sizes and the hash of their bytes
concatenated in order; and a tree in which every record resolves to a file
that is streamed without error and yields exactly those bytes. Then `Compare`,
from a new digest, reports every record Identical and returns no error. -/
theorem Compare_exact_tree (E : Env) (c : Comparer) (dirs : List String)
    (files : List (FileInfo × List Byte)) (b1 b2 : List Byte)
    (hnew : c.digest = NewDigest)
    (hhash : ∀ x, (E.hash x).length = E.size)
    (hinfos : c.infos = files.map Prod.fst)
    (hrec : ∀ p ∈ files, p.1.Size = p.2.length ∧ p.1.Size < 2 ^ 63 ∧ p.1.Curr = E.hash p.2)
    (hb1 : b1.length = 8) (hb2 : b2.length = 8)
    (hcount : beUint64 b1 = files.length)
    (hsize : beUint64 b2 = (files.map fun p => p.1.Size).sum)
    (hrest : c.rest = b1 ++ b2 ++ E.hash (files.flatMap Prod.snd))
    (htree : ∀ p ∈ files, Resolves E (dirs.map E.Clean) p.1 ∧
      E.copy (lookupFile E p.1 (dirs.map E.Clean)).1.File = .streamed p.2 false) :
    (Compare E c dirs).err = none ∧
    (Compare E c dirs).trace.length = c.infos.length ∧
    ∀ e ∈ (Compare E c dirs).trace, e.st = Identical := by
  have hloc : c.digest.loc = [] := by rw [hnew]; rfl
  have hglob : c.digest.glob = [] := by rw [hnew]; rfl
  have hstream : ∀ p ∈ files, streamedOf E (dirs.map E.Clean) p.1 = p.2 := fun p hp =>
    streamedOf_streamed E _ p.1 p.2 false (htree p hp).1 (htree p hp).2
  have hres : ∀ fi ∈ c.infos, Resolves E (dirs.map E.Clean) fi := by
    intro fi hfi
    rw [hinfos, List.mem_map] at hfi
    obtain ⟨p, hp, rfl⟩ := hfi
    exact (htree p hp).1
  have htrace : (Compare E c dirs).trace =
      c.infos.map fun fi =>
        (compareEntry E (dirs.map E.Clean) NewDigest { Count := 0, Size := 0 } fi).2.2 := by
    rw [Compare_trace]
    simp only [compareFiles, compareLoop_spec E _ c.infos c.digest _ hloc]
  refine ⟨?_, ?_, ?_⟩
  · have hcz : (compareFiles E c (dirs.map E.Clean)).cz
        = { Count := beUint64 b1, Size := beUint64 b2 } := by
      have hn : c.infos.length < 2 ^ 64 := by
        rw [hinfos, List.length_map, ← hcount]
        exact beUint64_lt b1 hb1
      have hsm : (c.infos.map fun fi => fi.Size).sum < 2 ^ 64 := by
        rw [hinfos, List.map_map]
        have := beUint64_lt b2 hb2
        rw [hsize] at this
        simpa [Function.comp_def] using this
      rw [compareFiles_cz, resolved_of_all E _ _ hres, updateAll_of_lt c.infos hn hsm,
        hcount, hsize, hinfos]
      simp [aggregateOf, Function.comp_def]
    have hsum : Checksum E (compareFiles E c (dirs.map E.Clean)).c
        = E.hash (files.flatMap Prod.snd) := by
      simp only [Checksum, Digest.Global, compareFiles, compareLoop_glob, hglob,
        List.nil_append, hinfos, flatMap_streamedOf E _ files hstream]
    rw [Compare_err, compare_full E _ _ b1 b2 (E.hash (files.flatMap Prod.snd))
      (by rw [compareFiles_rest, hrest]; simp) hb1 hb2]
    have ht : (E.hash (files.flatMap Prod.snd)).take E.size = E.hash (files.flatMap Prod.snd) := by
      rw [← hhash (files.flatMap Prod.snd)]
      simp
    rw [if_pos hcz, if_pos (by rw [hhash]), ht]
    exact if_pos hsum
  · rw [htrace, List.length_map]
  · intro e he
    rw [htrace, List.mem_map] at he
    obtain ⟨fi, hfi, rfl⟩ := he
    have hfi2 := hfi
    rw [hinfos, List.mem_map] at hfi2
    obtain ⟨p, hp, rfl⟩ := hfi2
    obtain ⟨h1, h2, h3⟩ := hrec p hp
    have hlen : (streamedOf E (dirs.map E.Clean) p.1).length < 2 ^ 63 := by
      rw [hstream p hp, ← h1]
      exact h2
    apply (compareEntry_status E (dirs.map E.Clean) p.1 (by omega) hlen).2.1.mpr
    exact ⟨(htree p hp).1, p.2, (htree p hp).2, h1.symm, h3.symm⟩

/-- A run of claim C4: `a` and `b` recorded with the sizes and checksums of
`d/a` and `e/b`, and the trailer 2, 5, 0f. -/
theorem Compare_exact_tree_witness :
    (Compare demoEnv
      (demoComparer false [recA, { recB with Curr := [9] }] (small 2 ++ small 5 ++ [15]))
      ["d/", "e"]).err = none ∧
    ((Compare demoEnv
      (demoComparer false [recA, { recB with Curr := [9] }] (small 2 ++ small 5 ++ [15]))
      ["d/", "e"]).trace.map fun e => e.st) = [Identical, Identical] :=
  ⟨(Compare_exact_tree demoEnv
      (demoComparer false [recA, { recB with Curr := [9] }] (small 2 ++ small 5 ++ [15]))
      ["d/", "e"] [(recA, [1, 2, 3]), ({ recB with Curr := [9] }, [4, 5])] (small 2) (small 5)
      rfl (fun _ => rfl) rfl (by decide) rfl rfl (by decide) (by decide) (by decide)
      (by decide)).1,
    by decide⟩

/-- Claim C5, what the code does. When nothing follows the records, the two
numeric reads fail, their errors are dropped, and the zero values left in
their place are compared with the aggregate: `Compare` returns the count/size
error exactly when the aggregate of the run is not zero, and so whenever at
least one record resolves (the number of records being one a 64-bit count
holds). -/
theorem Compare_absent_trailer (E : Env) (c : Comparer) (dirs : List String)
    (hrest : c.rest = []) :
    ((Compare E c dirs).err = some .finalCountSize ↔
      (compareFiles E c (dirs.map E.Clean)).cz ≠ { Count := 0, Size := 0 }) ∧
    (c.infos.length < 2 ^ 64 →
      (∃ fi ∈ c.infos, Resolves E (dirs.map E.Clean) fi) →
      (Compare E c dirs).err = some .finalCountSize) := by
  have hb : binaryRead [] 0 = (0, some .eof, []) := by decide
  have hiff : (Compare E c dirs).err = some .finalCountSize ↔
      (compareFiles E c (dirs.map E.Clean)).cz ≠ { Count := 0, Size := 0 } := by
    rw [Compare_err]
    unfold compare
    rw [compareFiles_rest, hrest]
    simp only [hb]
    by_cases hz : (compareFiles E c (dirs.map E.Clean)).cz = { Count := 0, Size := 0 }
    · have he : Coze.Equal { Count := 0, Size := 0 } { Count := 0, Size := 0 } = true := by
        decide
      simp only [hz, he, Bool.not_true, Bool.false_eq_true, if_false, ne_eq,
        not_true_eq_false, iff_false]
      unfold ReadFull
      split_ifs <;> simp
      split_ifs <;> simp
    · have he : (compareFiles E c (dirs.map E.Clean)).cz.Equal { Count := 0, Size := 0 }
          = false := by
        rw [← Bool.not_eq_true, Coze.Equal_iff]
        exact hz
      simp only [he, Bool.not_false, if_true, ne_eq, hz, not_false_eq_true]
  refine ⟨hiff, ?_⟩
  intro hcount hone
  obtain ⟨fi, hfi, hr⟩ := hone
  have hmem : fi ∈ resolved E (dirs.map E.Clean) c.infos := by
    simp [resolved, hfi, hr]
  have hpos : 0 < (resolved E (dirs.map E.Clean) c.infos).length :=
    List.length_pos_of_mem hmem
  have hle := resolved_length_le E (dirs.map E.Clean) c.infos
  have hcz : (compareFiles E c (dirs.map E.Clean)).cz.Count ≠ 0 := by
    rw [compareFiles_cz, updateAll_eq _ _ (by norm_num) (by norm_num)]
    simp only [aggregateOf, Nat.zero_add]
    rw [Nat.mod_eq_of_lt (Nat.lt_of_le_of_lt hle hcount)]
    omega
  apply hiff.mpr
  intro h
  rw [h] at hcz
  exact hcz rfl

/-- A run of claim C5: the manifest holds the record of `a` and ends there;
`Compare` returns the count/size error. -/
theorem Compare_absent_trailer_witness :
    (Compare demoEnv (demoComparer false [recA] []) ["d"]).err = some .finalCountSize :=
  (Compare_absent_trailer demoEnv (demoComparer false [recA] []) ["d"] rfl).2 (by decide)
    (by decide)

end Achile
